import Mathlib

/-!
Verification development for the mdtree repository (src/mdtree/treebuilder.py).

The development shallowly embeds the tree builder: the filesystem is an
inductive tree, Python strings are Lean strings manipulated through their
character lists, and the external pathspec gitwildmatch capability is a
parameter (a function from a pattern core and a relative path to a Bool),
instantiated where concrete verdicts are needed by a glob matcher modelled
from the specification. Recursion over the filesystem uses an explicit fuel
argument instantiated with the FS.size measure of the tree, which always
bounds the recursion depth; this keeps every definition computable by the
kernel.
-/

/-!
Filesystem snapshot: an entry is a file or a directory with children.
Models the directory subtree rooted at the validated root path. The child
collection is the companion type FSL so that a structurally recursive size
measure exists; FSL is convertible to an ordinary list.
-/
mutual

inductive FS where
  | file (name : String)
  | dir (name : String) (children : FSL)

inductive FSL where
  | nil
  | cons (hd : FS) (tl : FSL)

end

/-!
Number of entries of a subtree, the fuel bound of the recursions.
-/
mutual

def FS.size : FS → Nat
  | .file _ => 1
  | .dir _ cs => 1 + FSL.size cs

def FSL.size : FSL → Nat
  | .nil => 0
  | .cons x xs => FS.size x + FSL.size xs

end

instance : Inhabited FS := ⟨FS.file ""⟩

instance : Inhabited FSL := ⟨FSL.nil⟩

/-- Child collection as an ordinary list. -/
def FSL.toList : FSL → List FS
  | .nil => []
  | .cons x xs => x :: FSL.toList xs

/-- Child collection from an ordinary list. -/
def FSL.ofList : List FS → FSL
  | [] => .nil
  | x :: xs => .cons x (FSL.ofList xs)

/-- Directory constructor taking an ordinary list of children. -/
def FS.mkDir (n : String) (cs : List FS) : FS := .dir n (FSL.ofList cs)

/-- Name of an entry (Python Path.name). -/
def FS.name : FS → String
  | .file n => n
  | .dir n _ => n

/-- Directory test (Python Path.is_dir). -/
def FS.isDir : FS → Bool
  | .file _ => false
  | .dir _ _ => true

/-- Children of an entry (Python Path.iterdir; a file has none). -/
def FS.children : FS → List FS
  | .file _ => []
  | .dir _ cs => cs.toList

/-- Python str.startswith, on the character list of the string. -/
def strStartsWith (s pre : String) : Bool := pre.data.isPrefixOf s.data

/-- Python str.endswith, on the character list of the string. -/
def strEndsWith (s suf : String) : Bool := suf.data.isSuffixOf s.data

/-- Python slicing s[n:], on the character list of the string. -/
def strDrop (s : String) (n : Nat) : String := String.mk (s.data.drop n)

/-- Python s.rstrip with the slash character: remove all trailing slashes. -/
def rstripSlash (s : String) : String :=
  String.mk ((s.data.reverse.dropWhile (· = '/')).reverse)

/-- Root-relative POSIX path string from path components
(Python p.relative_to(root).as_posix() joins components with a slash). -/
def relStr : List String → String
  | [] => ""
  | [x] => x
  | x :: xs => x ++ "/" ++ relStr xs

/-- Modelled from the spec: the external wildmatch capability is missing from
src (it lives in the pathspec library); segment-level glob matching over
character lists, where a star matches any sequence of characters of the
segment and a question mark matches one character. -/
def globMatchL : List Char → List Char → Bool
  | [], cs => cs.isEmpty
  | p :: ps, cs =>
    if p = '*' then cs.tails.any fun suf => globMatchL ps suf
    else if p = '?' then
      match cs with
      | [] => false
      | _ :: cs => globMatchL ps cs
    else
      match cs with
      | [] => false
      | c :: cs => (p == c) && globMatchL ps cs

/-- Split a character list at slashes into path components. -/
def splitSlash : List Char → List (List Char)
  | [] => [[]]
  | c :: cs =>
    if c = '/' then [] :: splitSlash cs
    else
      match splitSlash cs with
      | [] => [[c]]
      | g :: gs => (c :: g) :: gs

/-- Modelled from the spec: the external gitwildmatch match operation
(pathspec PathSpec.match_file) is missing from src; a pattern core without
a slash is unanchored and matches a path when some component of the path
matches the glob, and a pattern core containing a slash is anchored and is
matched against the whole relative path. -/
def gitwildmatch (core rel : String) : Bool :=
  if core.data.contains '/' then globMatchL core.data rel.data
  else (splitSlash rel.data).any fun comp => globMatchL core.data comp

/-- Compiled ignore rule, mirroring the tuples built by
_compile_gitignore_rules: the negation flag, the core the PathSpec was
compiled from, and the original pattern text. -/
structure Rule where
  is_neg : Bool
  specCore : String
  pat : String
deriving DecidableEq

/-- Translation of _compile_gitignore_rules: keep line order, detect a
leading bang as negation, skip entries whose core is empty, and record the
core handed to the external matcher together with the original pattern. -/
def _compile_gitignore_rules (patterns : List String) : List Rule :=
  patterns.filterMap fun pat =>
    let is_neg := strStartsWith pat "!"
    let core := if is_neg then strDrop pat 1 else pat
    if core = "" then none
    else some { is_neg := is_neg, specCore := core, pat := pat }

/-- Body of the rule-scanning loop of is_ignored for a single rule: the
trailing-slash special case (exclude a directory and all its descendants for
a non-negated rule, re-include exactly the directory itself for a negated
rule) and the generic case that delegates to the external matcher
(state_ignore becomes the negation of is_neg on a match). -/
def ruleStep (matchFn : String → String → Bool) (r : Rule)
    (rel : String) (is_dir : Bool) (state_ignore : Bool) : Bool :=
  let core := if strStartsWith r.pat "!" then strDrop r.pat 1 else r.pat
  if strEndsWith core "/" then
    let dir_pat := rstripSlash core
    if !r.is_neg then
      if rel == dir_pat || strStartsWith rel (dir_pat ++ "/") then true
      else state_ignore
    else
      if is_dir && rel == dir_pat then false else state_ignore
  else
    if matchFn r.specCore rel then !r.is_neg else state_ignore

/-- Translation of is_ignored: the verdict starts at included (false),
every rule is scanned in declared order, and the state after the last rule
is returned. -/
def is_ignored (matchFn : String → String → Bool) (rules : List Rule)
    (rel : String) (is_dir : Bool) : Bool :=
  rules.foldl (fun st r => ruleStep matchFn r rel is_dir st) false

/-- ASCII lowercase of a character code (Python str.lower on ASCII input),
used only to order sibling names. -/
def lowerVal (c : Char) : Nat :=
  if 65 ≤ c.toNat && c.toNat ≤ 90 then c.toNat + 32 else c.toNat

/-- Lowercased sort key of a name as a list of character codes. -/
def lowerKey (s : String) : List Nat := s.data.map lowerVal

/-- Lexicographic comparison of code lists (Python string comparison). -/
def natListLE : List Nat → List Nat → Bool
  | [], _ => true
  | _ :: _, [] => false
  | a :: as, b :: bs =>
    if a < b then true else if b < a then false else natListLE as bs

/-- Sibling order of the traversal and the renderer: Python sorted with key
(not is_dir, name.lower()), so directories precede files and ties break by
lowercased name. -/
def sortKeyLE (a b : FS) : Bool :=
  let ka := !a.isDir
  let kb := !b.isDir
  if ka == kb then natListLE (lowerKey a.name) (lowerKey b.name)
  else !ka && kb

/-- Stable insertion of one entry into an already ordered sibling list. -/
def insertChild (x : FS) : List FS → List FS
  | [] => [x]
  | y :: ys => if sortKeyLE x y then x :: y :: ys else y :: insertChild x ys

/-- Stable sort of a sibling list by sortKeyLE (Python sorted is a stable
sort by the same key). -/
def sortChildren : List FS → List FS
  | [] => []
  | x :: xs => insertChild x (sortChildren xs)

/-- Depth cut-off test of the traversal and the renderer (Python: max_depth
is not None and depth is at least max_depth). -/
def stopDepth (max_depth : Option Nat) (depth : Nat) : Bool :=
  match max_depth with
  | none => false
  | some m => decide (m ≤ depth)

/-- Fuel-indexed translation of the full, non-pruning traversal of
build_structure_tree (step 3 of the source): every visited entry is recorded
with its root-relative components, and children of an entry are visited only
while the depth bound is not reached. The source visits entries in a
different order (a stack of sorted children); the resulting candidate list
here is the same collection of entries in depth-first order, and no later
stage depends on the order of this list. Fuel at least sizeOf of the node
makes the recursion total. -/
def enumFuel (max_depth : Option Nat) :
    Nat → FS → List String → Nat → List (List String × FS)
  | 0, _, _, _ => []
  | fuel + 1, node, rel, depth =>
    (rel, node) ::
    (if stopDepth max_depth depth then []
     else (sortChildren node.children).flatMap fun ch =>
       enumFuel max_depth fuel ch (rel ++ [ch.name]) (depth + 1))

/-- Candidate list of an invocation: the traversal started at the root with
empty relative path and depth zero. -/
def all_paths (max_depth : Option Nat) (root : FS) : List (List String × FS) :=
  enumFuel max_depth (FS.size root) root [] 0

/-- Strict ancestors of a relative path, nearest excluded endpoint being the
path itself: all proper component prefixes down to the root (Python walks
cur = cur.parent until the root and adds every stop). -/
def strictAncestors (p : List String) : List (List String) :=
  (List.range p.length).map fun k => p.take k

/-- Translation of step 5 of build_structure_tree: every ancestor of every
included path is forced back into the inclusion set (membership model of the
Python set update). -/
def reconcile (inc : List (List String)) : List (List String) :=
  inc ++ inc.flatMap strictAncestors

/-- Translation of step 4 of build_structure_tree: the root is always
included, and every other candidate is included exactly when is_ignored
rejects it. The result is the inclusion set before reconciliation, as a list
of root-relative component paths. -/
def resolverIncluded (matchFn : String → String → Bool) (rules : List Rule)
    (max_depth : Option Nat) (root : FS) : List (List String) :=
  (all_paths max_depth root).filterMap fun q =>
    if q.1 = [] then some []
    else if is_ignored matchFn rules (relStr q.1) q.2.isDir then none
    else some q.1

/-- Rule sequence of an invocation (step 1 of build_structure_tree):
gitignore lines when apply_gitignore is set, then the caller-supplied
ignore_list, then the implicit .git/ rule when exclude_git is set. The
gitignore lines arrive as a parameter, modelling what _read_gitignore_lines
returns after stripping blank and comment lines. -/
def buildPatterns (gitignoreLines : List String) (ignore_list : List String)
    (apply_gitignore : Bool) (exclude_git : Bool) : List String :=
  (if apply_gitignore then gitignoreLines else []) ++ ignore_list ++
    (if exclude_git then [".git/"] else [])

/-- Final inclusion set of an invocation: resolver verdicts reconciled with
all ancestors. -/
def pipelineIncluded (matchFn : String → String → Bool)
    (gitignoreLines ignore_list : List String)
    (apply_gitignore exclude_git : Bool)
    (max_depth : Option Nat) (root : FS) : List (List String) :=
  reconcile (resolverIncluded matchFn
    (_compile_gitignore_rules
      (buildPatterns gitignoreLines ignore_list apply_gitignore exclude_git))
    max_depth root)

/-- Translation of list_children of the renderer: the sorted children of a
directory, filtered to members of the inclusion set. -/
def list_children (included : List (List String)) (rel : List String)
    (node : FS) : List FS :=
  (sortChildren node.children).filter fun c => decide ((rel ++ [c.name]) ∈ included)

/-- Pair every element of a list with its last-sibling flag (Python: i equals
len minus one inside the enumerate loop of rec). -/
def markLast {α : Type} : List α → List (α × Bool)
  | [] => []
  | [x] => [(x, true)]
  | x :: xs => (x, false) :: markLast xs

/-- Fuel-indexed translation of rec, the renderer recursion: nothing below
the depth bound, otherwise one connector-decorated line per included child
(branch glyph for a non-last sibling, corner glyph for the last), and for a
directory child the recursion extended with a continuation or blank pad.
Fuel at least sizeOf of the node makes the recursion total. -/
def recRender (max_depth : Option Nat) (included : List (List String)) :
    Nat → FS → List String → String → Nat → List String
  | 0, _, _, _, _ => []
  | fuel + 1, node, rel, pfx, depth =>
    if stopDepth max_depth depth then []
    else
      (markLast (list_children included rel node)).flatMap fun q =>
        (pfx ++ (if q.2 then "└── " else "├── ") ++ q.1.name) ::
        (if q.1.isDir then
          recRender max_depth included fuel q.1 (rel ++ [q.1.name])
            (pfx ++ (if q.2 then "     " else "│    ")) (depth + 1)
         else [])

/-- Translation of build_structure_tree: rule construction, compilation,
traversal, resolution, reconciliation, and rendering; the result is the
newline-joined lines starting with the name of the root. -/
def build_structure_tree (matchFn : String → String → Bool)
    (root_path : FS) (max_depth : Option Nat)
    (gitignoreLines ignore_list : List String)
    (apply_gitignore exclude_git : Bool) : String :=
  let included := pipelineIncluded matchFn gitignoreLines ignore_list
    apply_gitignore exclude_git max_depth root_path
  String.intercalate "\n"
    (root_path.name ::
      recRender max_depth included (FS.size root_path) root_path [] "" 0)

/-- Translation of _rel_for_match: for a directory both the bare relative
path and the form with one trailing slash appended (when the path is
nonempty and has none), for a file only the bare relative path. The source
defines this function but the resolver never calls it. -/
def _rel_for_match (rel : String) (is_dir : Bool) : List String :=
  if is_dir then
    [rel, if (rel != "") && !(strEndsWith rel "/") then rel ++ "/" else rel]
  else [rel]

/-- Follows the words of the specification for claim C7: a rule is tested
against every alternate relative form produced by _rel_for_match, so that a
rule targeting the trailing-slash form also reaches a directory. This is the
claimed behaviour, written out to be compared with the resolver of the
source. -/
def ruleStepForms (matchFn : String → String → Bool) (r : Rule)
    (forms : List String) (is_dir : Bool) (state_ignore : Bool) : Bool :=
  let core := if strStartsWith r.pat "!" then strDrop r.pat 1 else r.pat
  if strEndsWith core "/" then
    let dir_pat := rstripSlash core
    if !r.is_neg then
      if forms.any fun rel => rel == dir_pat || strStartsWith rel (dir_pat ++ "/")
      then true else state_ignore
    else
      if is_dir && (forms.any fun rel => rel == dir_pat) then false
      else state_ignore
  else
    if forms.any (matchFn r.specCore) then !r.is_neg else state_ignore

/-- Follows the words of the specification for claim C7: resolver variant
that scans the rules in order while testing each rule against the two
alternate relative forms of the candidate. -/
def is_ignored_twoForms (matchFn : String → String → Bool) (rules : List Rule)
    (rel : String) (is_dir : Bool) : Bool :=
  rules.foldl
    (fun st r => ruleStepForms matchFn r (_rel_for_match rel is_dir) is_dir st)
    false

/-- Matcher instance for the C7 analysis: matches exactly the string with a
trailing slash appended to the name d, whatever the pattern core. -/
def mfSlashForm : String → String → Bool := fun _ rel => rel == "d/"

/-- Matcher instance that never matches. -/
def mfNever : String → String → Bool := fun _ _ => false

/-- Step of the debug-aware resolver: the same verdict transitions as
ruleStep, together with the hits list the source appends to on every match
(pattern, relative path, effect text). -/
def ruleStepD (matchFn : String → String → Bool) (r : Rule)
    (rel : String) (is_dir : Bool) :
    Bool × List (String × String × String) →
    Bool × List (String × String × String)
  | (state_ignore, hits) =>
    let core := if strStartsWith r.pat "!" then strDrop r.pat 1 else r.pat
    if strEndsWith core "/" then
      let dir_pat := rstripSlash core
      if !r.is_neg then
        if rel == dir_pat || strStartsWith rel (dir_pat ++ "/") then
          (true, hits ++ [(r.pat, rel, "EXCLUDE (dir and descendants)")])
        else (state_ignore, hits)
      else
        if is_dir && rel == dir_pat then
          (false, hits ++ [(r.pat, rel, "INCLUDE (unignore dir)")])
        else (state_ignore, hits)
    else
      if matchFn r.specCore rel then
        (!r.is_neg, hits ++
          [(r.pat, rel, if !r.is_neg then "EXCLUDE" else "INCLUDE (unignore)")])
      else (state_ignore, hits)

/-- Debug-aware is_ignored: verdict plus the accumulated hits list. -/
def is_ignoredD (matchFn : String → String → Bool) (rules : List Rule)
    (rel : String) (is_dir : Bool) : Bool × List (String × String × String) :=
  rules.foldl (fun st r => ruleStepD matchFn r rel is_dir st) (false, [])

/-- Diagnostic lines the source prints for one candidate when MDTREE_DEBUG
is enabled: a header with the entry kind and path, then one line per hit and
a final-verdict line, or a no-match line (string repr simplified to the bare
text). -/
def debugLines (rel : String) (is_dir : Bool)
    (hits : List (String × String × String)) (final : Bool) : List String :=
  ("[" ++ (if is_dir then "DIR " else "FILE") ++ "] " ++
      (if rel == "" then "." else rel)) ::
  (if hits.isEmpty then ["   -> no match"]
   else (hits.map fun h => "   -> match: " ++ h.1 ++ " on " ++ h.2.1 ++
          " => " ++ h.2.2) ++
        ["   => FINAL: " ++ (if final then "IGNORED" else "INCLUDED")])

/-- Verdict and emitted diagnostic stream of one is_ignored call: the trace
is produced only when the MDTREE_DEBUG switch is enabled, the verdict is the
first component either way. -/
def is_ignored_debug (DEBUG : Bool) (matchFn : String → String → Bool)
    (rules : List Rule) (rel : String) (is_dir : Bool) : Bool × List String :=
  let q := is_ignoredD matchFn rules rel is_dir
  (q.1, if DEBUG then debugLines rel is_dir q.2 q.1 else [])

/-- Debug-aware resolution loop over the candidate list: the inclusion list
together with everything written to the diagnostic stream. -/
def resolverIncludedDebug (DEBUG : Bool) (matchFn : String → String → Bool)
    (rules : List Rule) (max_depth : Option Nat) (root : FS) :
    List (List String) × List String :=
  (all_paths max_depth root).foldl
    (fun acc q =>
      if q.1 = [] then (acc.1 ++ [([] : List String)], acc.2)
      else
        let v := is_ignored_debug DEBUG matchFn rules (relStr q.1) q.2.isDir
        (if v.1 then acc.1 else acc.1 ++ [q.1], acc.2 ++ v.2))
    ([], [])

/-- Debug-aware build_structure_tree: the returned tree text and, separately,
the diagnostic stream produced while resolving. -/
def build_structure_tree_debug (DEBUG : Bool)
    (matchFn : String → String → Bool)
    (root_path : FS) (max_depth : Option Nat)
    (gitignoreLines ignore_list : List String)
    (apply_gitignore exclude_git : Bool) : String × List String :=
  let rules := _compile_gitignore_rules
    (buildPatterns gitignoreLines ignore_list apply_gitignore exclude_git)
  let resolved := resolverIncludedDebug DEBUG matchFn rules max_depth root_path
  let included := reconcile resolved.1
  (String.intercalate "\n"
    (root_path.name ::
      recRender max_depth included (FS.size root_path) root_path [] "" 0),
   resolved.2)

/-- Python value handed to validate_and_convert_path: a str, a Path, or a
value of any other type. -/
inductive PyValue where
  | str (s : String)
  | path (p : String)
  | other

/-- Translation of validate_and_convert_path: reject a value that is neither
str nor Path, reject a path that does not exist, otherwise resolve the path
to its absolute canonical form. The filesystem existence test and the
resolution are the environment, passed as functions (type repr in the error
message simplified to fixed text). -/
def validate_and_convert_path (fsExists : String → Bool)
    (resolve : String → String) : PyValue → Except String String
  | .other => .error "Invalid input type. Expected str or Path."
  | .str s =>
    if fsExists s then .ok (resolve s) else .error "input path does not exist."
  | .path p =>
    if fsExists p then .ok (resolve p) else .error "input path does not exist."

/-- Concrete filesystem used by witnesses: a root with one directory that
contains one file. -/
def fsWitness : FS := FS.mkDir "r" [FS.mkDir "a" [FS.file "b"]]

lemma ne_empty_of_strEndsWith_slash (s : String) (h : strEndsWith s "/" = true) :
    ¬ s = "" := by
  intro he
  subst he
  exact absurd h (by decide)

/-- Claim C3. For the single-rule ignore list consisting of the directory-only
pattern build/, the resolver verdict of a candidate is excluded exactly when
its relative path equals build or starts with build followed by a slash;
every other candidate keeps the default included verdict, whatever the
external matcher does. -/
theorem C3_build_dir_rule (mf : String → String → Bool) (rel : String)
    (is_dir : Bool) :
    is_ignored mf (_compile_gitignore_rules ["build/"]) rel is_dir
      = (rel == "build" || strStartsWith rel "build/") := by
  have hc : _compile_gitignore_rules ["build/"]
      = [{ is_neg := false, specCore := "build/", pat := "build/" }] := by decide
  rw [hc]
  show ruleStep mf { is_neg := false, specCore := "build/", pat := "build/" }
      rel is_dir false = (rel == "build" || strStartsWith rel "build/")
  show (if (rel == "build" || strStartsWith rel "build/") = true
      then true else false)
    = (rel == "build" || strStartsWith rel "build/")
  cases h : (rel == "build" || strStartsWith rel "build/") <;> simp [h]

/-- Claim C4. A negated directory-only rule compiles to a single negated rule
whose core keeps the trailing slash, and its evaluation step turns the
running verdict to included exactly when the candidate is a directory whose
relative path equals the core with trailing slashes removed; in every other
situation, descendants and non-directories included, the running verdict is
returned unchanged. -/
theorem C4_negated_dir_rule (mf : String → String → Bool) (pat rel : String)
    (is_dir st : Bool)
    (h1 : strStartsWith pat "!" = true)
    (h2 : strEndsWith (strDrop pat 1) "/" = true) :
    _compile_gitignore_rules [pat]
        = [{ is_neg := true, specCore := strDrop pat 1, pat := pat }]
    ∧ ruleStep mf { is_neg := true, specCore := strDrop pat 1, pat := pat }
        rel is_dir st
      = if is_dir && rel == rstripSlash (strDrop pat 1) then false else st := by
  have hne := ne_empty_of_strEndsWith_slash (strDrop pat 1) h2
  constructor
  · simp only [_compile_gitignore_rules, List.filterMap_cons, h1, if_true,
      List.filterMap_nil, hne, if_false]
  · simp only [ruleStep, h1, if_true, h2, Bool.not_true, Bool.false_eq_true,
      if_false]

/-- Witness for C4 at the pattern bang dir slash: the compiled rule leaves a
descendant of the directory untouched (running verdict stays excluded). -/
theorem C4_negated_dir_rule_witness :
    ruleStep mfNever { is_neg := true, specCore := "dir/", pat := "!dir/" }
      "dir/x" true true = true := by
  have h := (C4_negated_dir_rule mfNever "!dir/" "dir/x" true true
    (by decide) (by decide)).2
  have e1 : strDrop "!dir/" 1 = "dir/" := by decide
  rw [e1] at h
  rw [h]
  decide

/-- Claim C10. A non-negated directory-only rule compiles to a single rule,
and its evaluation step marks a candidate whose relative path equals the
slash-stripped core as excluded even when the candidate is not a directory;
concretely, a regular file named build is excluded by the rule build/. -/
theorem C10_dir_rule_hits_file (mf : String → String → Bool) (pat : String)
    (st : Bool)
    (h1 : strStartsWith pat "!" = false)
    (h2 : strEndsWith pat "/" = true) :
    _compile_gitignore_rules [pat]
        = [{ is_neg := false, specCore := pat, pat := pat }]
    ∧ ruleStep mf { is_neg := false, specCore := pat, pat := pat }
        (rstripSlash pat) false st = true
    ∧ is_ignored gitwildmatch (_compile_gitignore_rules ["build/"])
        "build" false = true := by
  have hne := ne_empty_of_strEndsWith_slash pat h2
  refine ⟨?_, ?_, by decide⟩
  · simp only [_compile_gitignore_rules, List.filterMap_cons, h1,
      Bool.false_eq_true, if_false, List.filterMap_nil, hne, if_false]
  · simp only [ruleStep, h1, Bool.false_eq_true, if_false, h2, if_true,
      Bool.not_false, beq_self_eq_true, Bool.true_or, if_true]

/-- Witness for C10: the rule build/ excludes a regular file named build. -/
theorem C10_dir_rule_hits_file_witness :
    ruleStep mfNever { is_neg := false, specCore := "build/", pat := "build/" }
      "build" false false = true := by
  have h := (C10_dir_rule_hits_file mfNever "build/" false
    (by decide) (by decide)).2.1
  have e1 : rstripSlash "build/" = "build" := by decide
  rw [e1] at h
  exact h

/-- Claim C2. The resolver is last-match-wins: appending one more generic
rule whose matcher accepts the candidate makes the final verdict the
negation flag of that last rule, whatever the earlier rules decided; and for
the conflicting literal patterns foo and bang foo, swapping their order
swaps the verdict of the path foo. -/
theorem C2_last_match_wins (mf : String → String → Bool) (rules : List Rule)
    (r : Rule) (rel : String) (is_dir : Bool)
    (hgen : strEndsWith
      (if strStartsWith r.pat "!" then strDrop r.pat 1 else r.pat) "/" = false)
    (hm : mf r.specCore rel = true) :
    is_ignored mf (rules ++ [r]) rel is_dir = !r.is_neg
    ∧ is_ignored gitwildmatch (_compile_gitignore_rules ["foo", "!foo"])
        "foo" false = false
    ∧ is_ignored gitwildmatch (_compile_gitignore_rules ["!foo", "foo"])
        "foo" false = true := by
  refine ⟨?_, by decide, by decide⟩
  rw [is_ignored, List.foldl_append]
  show ruleStep mf r rel is_dir _ = !r.is_neg
  simp only [ruleStep, hgen, Bool.false_eq_true, if_false, hm, if_true]

/-- Witness for C2: a single matching non-negated literal rule yields the
excluded verdict. -/
theorem C2_last_match_wins_witness :
    is_ignored gitwildmatch
      ([] ++ [{ is_neg := false, specCore := "foo", pat := "foo" }]) "foo" false
      = true := by
  have h := (C2_last_match_wins gitwildmatch []
    { is_neg := false, specCore := "foo", pat := "foo" } "foo" false
    (by decide) (by decide)).1
  simpa using h

lemma globMatchL_literal (p : List Char) (h1 : '*' ∉ p) (h2 : '?' ∉ p) :
    ∀ s : List Char, globMatchL p s = (p == s) := by
  induction p with
  | nil =>
    intro s
    cases s <;> simp [globMatchL]
  | cons c ps ih =>
    simp only [List.mem_cons, not_or] at h1 h2
    intro s
    rcases s with _ | ⟨c2, s⟩
    · simp [globMatchL, Ne.symm h1.1, Ne.symm h2.1]
    · simp [globMatchL, Ne.symm h1.1, Ne.symm h2.1, ih h1.2 h2.2,
        List.cons_beq_cons]

lemma splitSlash_no_slash (s : List Char) (h : '/' ∉ s) : splitSlash s = [s] := by
  induction s with
  | nil => rfl
  | cons c cs ih =>
    simp only [List.mem_cons, not_or] at h
    simp [splitSlash, Ne.symm h.1, ih h.2]

lemma gitwildmatch_important_log (name : String)
    (hne : name ≠ "important.log") (hns : '/' ∉ name.data) :
    gitwildmatch "important.log" name = false := by
  show ((splitSlash name.data).any fun comp =>
    globMatchL "important.log".data comp) = false
  rw [splitSlash_no_slash name.data hns]
  simp only [List.any_cons, List.any_nil, Bool.or_false]
  rw [globMatchL_literal "important.log".data (by decide) (by decide)]
  refine beq_eq_false_iff_ne.mpr ?_
  intro heq
  exact hne (String.ext heq.symm)

/-- Claim C5. Under the ignore list star dot log then bang important dot log,
a root-level file (relative path without slash) whose name matches the glob
star dot log is excluded unless it is exactly important dot log, and the
file important dot log itself is included. -/
theorem C5_log_negation_override (name : String)
    (h1 : name ≠ "important.log")
    (h2 : gitwildmatch "*.log" name = true)
    (h3 : '/' ∉ name.data) :
    is_ignored gitwildmatch
      (_compile_gitignore_rules ["*.log", "!important.log"]) name false = true
    ∧ is_ignored gitwildmatch
      (_compile_gitignore_rules ["*.log", "!important.log"])
      "important.log" false = false := by
  refine ⟨?_, by decide⟩
  have hc : _compile_gitignore_rules ["*.log", "!important.log"]
      = [{ is_neg := false, specCore := "*.log", pat := "*.log" },
         { is_neg := true, specCore := "important.log",
           pat := "!important.log" }] := by decide
  rw [hc]
  show ruleStep gitwildmatch
      { is_neg := true, specCore := "important.log", pat := "!important.log" }
      name false
      (ruleStep gitwildmatch
        { is_neg := false, specCore := "*.log", pat := "*.log" }
        name false false) = true
  have s1 : ruleStep gitwildmatch
      { is_neg := false, specCore := "*.log", pat := "*.log" }
      name false false = true := by
    show (if gitwildmatch "*.log" name = true then !false else false) = true
    rw [h2]
    simp
  rw [s1]
  show (if gitwildmatch "important.log" name = true then !true else true) = true
  rw [gitwildmatch_important_log name h1 h3]
  simp

/-- Witness for C5: the file debug dot log at the root is excluded. -/
theorem C5_log_negation_override_witness :
    is_ignored gitwildmatch
      (_compile_gitignore_rules ["*.log", "!important.log"])
      "debug.log" false = true :=
  (C5_log_negation_override "debug.log" (by decide) (by decide) (by decide)).1

/-- Claim C9. Validation succeeds exactly for a str or Path value naming an
existing path, and then returns the resolved absolute canonical form; a
value of any other type or a non-existent path is rejected with an error
before any traversal. -/
theorem C9_validate_and_convert (fsExists : String → Bool)
    (resolve : String → String) (v : PyValue) (out : String) :
    validate_and_convert_path fsExists resolve v = Except.ok out ↔
      ∃ s, (v = PyValue.str s ∨ v = PyValue.path s) ∧ fsExists s = true
        ∧ out = resolve s := by
  cases v with
  | other => simp [validate_and_convert_path]
  | str s =>
    cases h : fsExists s
    · simp [validate_and_convert_path, h]
    · simp [validate_and_convert_path, h]
      exact eq_comm
  | path p =>
    cases h : fsExists p
    · simp [validate_and_convert_path, h]
    · simp [validate_and_convert_path, h]
      exact eq_comm

lemma FS.size_pos (node : FS) : 0 < FS.size node := by
  cases node <;> simp [FS.size]

lemma all_paths_cons (md : Option Nat) (root : FS) :
    ∃ rest, all_paths md root = ([], root) :: rest := by
  obtain ⟨k, hk⟩ : ∃ k, FS.size root = k + 1 :=
    ⟨FS.size root - 1, by have := FS.size_pos root; omega⟩
  refine ⟨(if stopDepth md 0 then []
    else (sortChildren root.children).flatMap fun ch =>
      enumFuel md k ch ([] ++ [ch.name]) (0 + 1)), ?_⟩
  rw [all_paths, hk]
  rfl

lemma mem_resolverIncluded_root (mf : String → String → Bool)
    (rules : List Rule) (md : Option Nat) (root : FS) :
    [] ∈ resolverIncluded mf rules md root := by
  obtain ⟨rest, h⟩ := all_paths_cons md root
  unfold resolverIncluded
  rw [h]
  simp [List.filterMap_cons]

lemma mem_strictAncestors_iff (q p : List String) :
    q ∈ strictAncestors p ↔ ∃ k, k < p.length ∧ q = p.take k := by
  simp [strictAncestors, eq_comm]

lemma reconcile_take_mem (inc : List (List String)) (p : List String)
    (hp : p ∈ reconcile inc) (k : Nat) (hk : k < p.length) :
    p.take k ∈ reconcile inc := by
  rw [reconcile, List.mem_append] at hp ⊢
  rcases hp with hp | hp
  · right
    rw [List.mem_flatMap]
    exact ⟨p, hp, (mem_strictAncestors_iff _ _).mpr ⟨k, hk, rfl⟩⟩
  · right
    rw [List.mem_flatMap] at hp ⊢
    obtain ⟨q, hq, hqa⟩ := hp
    rw [mem_strictAncestors_iff] at hqa
    obtain ⟨j, hj, rfl⟩ := hqa
    simp only [List.length_take] at hk
    refine ⟨q, hq, (mem_strictAncestors_iff _ _).mpr ⟨k, by omega, ?_⟩⟩
    rw [List.take_take]
    congr 1
    omega

/-- Claim C1. The final inclusion set of any invocation is prefix-closed
with respect to the root: the root relative path is a member, and for any
member every strict component prefix is also a member, for every matcher,
pattern source, depth bound, and filesystem. -/
theorem C1_prefix_closure (mf : String → String → Bool)
    (gitignoreLines ignore_list : List String) (ag eg : Bool)
    (md : Option Nat) (root : FS) :
    [] ∈ pipelineIncluded mf gitignoreLines ignore_list ag eg md root
    ∧ ∀ p ∈ pipelineIncluded mf gitignoreLines ignore_list ag eg md root,
        ∀ k, k < p.length →
          p.take k ∈ pipelineIncluded mf gitignoreLines ignore_list ag eg md root := by
  constructor
  · rw [pipelineIncluded, reconcile, List.mem_append]
    left
    exact mem_resolverIncluded_root _ _ _ _
  · intro p hp k hk
    rw [pipelineIncluded] at hp ⊢
    exact reconcile_take_mem _ p hp k hk

/-- Witness for C1 on the concrete two-level filesystem: the nested file is
included and so is its parent directory. -/
theorem C1_prefix_closure_witness :
    ["a", "b"] ∈ pipelineIncluded gitwildmatch [] [] false false none fsWitness
    ∧ ["a"] ∈ pipelineIncluded gitwildmatch [] [] false false none fsWitness :=
  ⟨by decide,
   (C1_prefix_closure gitwildmatch [] [] false false none fsWitness).2
     ["a", "b"] (by decide) 1 (by decide)⟩

lemma recRender_stop (md : Option Nat) (inc : List (List String)) (fuel : Nat)
    (node : FS) (rel : List String) (pfx : String) (depth : Nat)
    (h : stopDepth md depth = true) :
    recRender md inc fuel node rel pfx depth = [] := by
  cases fuel with
  | zero => rfl
  | succ k => simp [recRender, h]

lemma recRender_depth_one (inc : List (List String)) (root : FS) (fuel : Nat)
    (hf : 0 < fuel) :
    recRender (some 1) inc fuel root [] "" 0 =
      (markLast (list_children inc [] root)).map fun q =>
        (if q.2 then "└── " else "├── ") ++ q.1.name := by
  obtain ⟨k, rfl⟩ : ∃ k, fuel = k + 1 := ⟨fuel - 1, by omega⟩
  have hstop : stopDepth (some 1) 0 = false := by decide
  rw [recRender]
  rw [hstop]
  simp only [Bool.false_eq_true, if_false]
  generalize markLast (list_children inc [] root) = l
  induction l with
  | nil => rfl
  | cons q l ih =>
    simp only [List.flatMap_cons, List.map_cons]
    have hin : recRender (some 1) inc k q.1 ([] ++ [q.1.name])
        ("" ++ (if q.2 then "     " else "│    ")) (0 + 1) = [] :=
      recRender_stop _ _ _ _ _ _ _ (by decide)
    rw [hin]
    rw [ih]
    cases hq : q.1.isDir <;> simp

/-- Claim C6. With the depth bound one, the rendered output is exactly the
root name followed by one connector line per included depth-one entry, in
sibling order: no line for anything nested deeper exists, and directories at
the bound appear as leaves without recursion. -/
theorem C6_depth_bound_one (mf : String → String → Bool)
    (gitignoreLines ignore_list : List String) (ag eg : Bool) (root : FS) :
    build_structure_tree mf root (some 1) gitignoreLines ignore_list ag eg =
      String.intercalate "\n" (root.name ::
        (markLast (list_children
            (pipelineIncluded mf gitignoreLines ignore_list ag eg (some 1) root)
            [] root)).map fun q =>
          (if q.2 then "└── " else "├── ") ++ q.1.name) := by
  simp only [build_structure_tree]
  congr 1
  congr 1
  exact recRender_depth_one _ _ _ (FS.size_pos root)

lemma ruleStepD_fst (mf : String → String → Bool) (r : Rule) (rel : String)
    (is_dir : Bool) (st : Bool) (hs : List (String × String × String)) :
    (ruleStepD mf r rel is_dir (st, hs)).1 = ruleStep mf r rel is_dir st := by
  simp only [ruleStepD, ruleStep]
  repeat' split
  all_goals rfl

lemma is_ignoredD_fst (mf : String → String → Bool) (rules : List Rule)
    (rel : String) (is_dir : Bool) :
    ∀ (st : Bool) (hs : List (String × String × String)),
      (rules.foldl (fun ac r => ruleStepD mf r rel is_dir ac) (st, hs)).1
        = rules.foldl (fun ac r => ruleStep mf r rel is_dir ac) st := by
  induction rules with
  | nil => intro st hs; rfl
  | cons r rs ih =>
    intro st hs
    simp only [List.foldl_cons]
    rcases hD : ruleStepD mf r rel is_dir (st, hs) with ⟨st2, hs2⟩
    have h2 : st2 = ruleStep mf r rel is_dir st := by
      rw [← ruleStepD_fst mf r rel is_dir st hs, hD]
    rw [ih st2 hs2, h2]

lemma is_ignored_debug_fst (DEBUG : Bool) (mf : String → String → Bool)
    (rules : List Rule) (rel : String) (is_dir : Bool) :
    (is_ignored_debug DEBUG mf rules rel is_dir).1
      = is_ignored mf rules rel is_dir := by
  simp only [is_ignored_debug, is_ignoredD, is_ignored]
  exact is_ignoredD_fst mf rules rel is_dir false []

lemma foldl_debug_fst (DEBUG : Bool) (mf : String → String → Bool)
    (rules : List Rule) :
    ∀ (l : List (List String × FS)) (accL : List (List String))
      (accT : List String),
      (l.foldl (fun acc q =>
          if q.1 = [] then (acc.1 ++ [([] : List String)], acc.2)
          else
            let v := is_ignored_debug DEBUG mf rules (relStr q.1) q.2.isDir
            (if v.1 then acc.1 else acc.1 ++ [q.1], acc.2 ++ v.2))
        (accL, accT)).1
      = accL ++ l.filterMap (fun q =>
          if q.1 = [] then some []
          else if is_ignored mf rules (relStr q.1) q.2.isDir then none
          else some q.1) := by
  intro l
  induction l with
  | nil => intro accL accT; simp
  | cons q l ih =>
    intro accL accT
    simp only [List.foldl_cons, List.filterMap_cons]
    by_cases h0 : q.1 = []
    · simp [h0, ih]
    · simp only [h0, if_false]
      have hfst := is_ignored_debug_fst DEBUG mf rules (relStr q.1) q.2.isDir
      cases hv : is_ignored mf rules (relStr q.1) q.2.isDir
      · rw [hv] at hfst
        simp [hfst, ih]
      · rw [hv] at hfst
        simp [hfst, ih]

lemma resolverIncludedDebug_fst (DEBUG : Bool) (mf : String → String → Bool)
    (rules : List Rule) (md : Option Nat) (root : FS) :
    (resolverIncludedDebug DEBUG mf rules md root).1
      = resolverIncluded mf rules md root := by
  rw [resolverIncludedDebug, resolverIncluded]
  exact foldl_debug_fst DEBUG mf rules (all_paths md root) [] []

/-- Claim C8. The MDTREE_DEBUG switch never alters the returned tree text:
for every matcher, root, depth bound and rule source, the first component of
the debug-aware build is the same with the switch on and off, and coincides
with the plain build_structure_tree result; the switch only governs the
separately returned diagnostic stream. -/
theorem C8_debug_does_not_alter_result (mf : String → String → Bool)
    (root : FS) (md : Option Nat) (gitignoreLines ignore_list : List String)
    (ag eg : Bool) :
    (build_structure_tree_debug true mf root md gitignoreLines ignore_list
        ag eg).1
      = (build_structure_tree_debug false mf root md gitignoreLines
          ignore_list ag eg).1
    ∧ (build_structure_tree_debug false mf root md gitignoreLines ignore_list
        ag eg).1
      = build_structure_tree mf root md gitignoreLines ignore_list ag eg := by
  have h : ∀ DEBUG, (build_structure_tree_debug DEBUG mf root md gitignoreLines
      ignore_list ag eg).1
      = build_structure_tree mf root md gitignoreLines ignore_list ag eg := by
    intro DEBUG
    simp only [build_structure_tree_debug, build_structure_tree,
      pipelineIncluded]
    rw [resolverIncludedDebug_fst]
  exact ⟨(h true).trans (h false).symm, h false⟩

/-- Counterexample to claim C7. The resolver of the source does not test
rules against the two alternate relative forms: with a matcher that accepts
exactly the trailing-slash form of the directory d, the resolver of the
source leaves the directory included, while the resolver written from the
words of the claim (testing both forms from _rel_for_match) excludes it. -/
theorem C7_two_forms_counterexample :
    is_ignored mfSlashForm (_compile_gitignore_rules ["x"]) "d" true = false
    ∧ is_ignored_twoForms mfSlashForm (_compile_gitignore_rules ["x"])
        "d" true = true := by
  constructor <;> decide

/-- Amended claim C7. The data model does compute the two alternate relative
forms for a directory (_rel_for_match returns the bare path and the path
with a trailing separator), but the resolver consults only the bare relative
path: its verdict is unchanged when the matcher is replaced by any matcher
that agrees with it on the bare relative path alone. -/
theorem C7_resolver_uses_bare_form_only (mf mfB : String → String → Bool)
    (rules : List Rule) (rel : String) (is_dir : Bool)
    (hform : ((rel != "") && !(strEndsWith rel "/")) = true)
    (hagree : ∀ core, mf core rel = mfB core rel) :
    _rel_for_match rel true = [rel, rel ++ "/"]
    ∧ is_ignored mf rules rel is_dir = is_ignored mfB rules rel is_dir := by
  constructor
  · simp [_rel_for_match, hform]
  · have hstep : ∀ (r : Rule) (st : Bool),
        ruleStep mf r rel is_dir st = ruleStep mfB r rel is_dir st := by
      intro r st
      simp only [ruleStep, hagree r.specCore]
    rw [is_ignored, is_ignored]
    have hfold : ∀ (rs : List Rule) (st : Bool),
        rs.foldl (fun s r => ruleStep mf r rel is_dir s) st
          = rs.foldl (fun s r => ruleStep mfB r rel is_dir s) st := by
      intro rs
      induction rs with
      | nil => intro st; rfl
      | cons r t ih =>
        intro st
        simp only [List.foldl_cons, hstep r st]
        exact ih _
    exact hfold rules false

/-- Witness for the amended C7 at the directory d: the two forms exist, and
two matchers that differ only on the trailing-slash form give the same
verdict. -/
theorem C7_resolver_uses_bare_form_only_witness :
    _rel_for_match "d" true = ["d", "d/"]
    ∧ is_ignored mfSlashForm (_compile_gitignore_rules ["x"]) "d" true
      = is_ignored mfNever (_compile_gitignore_rules ["x"]) "d" true :=
  C7_resolver_uses_bare_form_only mfSlashForm mfNever
    (_compile_gitignore_rules ["x"]) "d" true (by decide)
    (fun core => rfl)
